import Mathlib

/-!
Verification of the Newton-Cotes quadrature rules of
`src/numerical_methods/newton_cotes_formulas.c`.

The C file computes with IEEE doubles; the shallow embedding below models
the arithmetic exactly over `ℚ` (the rules are single passes of field
operations, so the embedding keeps the source's structure: the same
initial accumulator, the same loop range `i = 1 .. n-1` or `i = 0 .. n-1`
as a left fold, the same weight branches, the same final scaling).  The
C parameter `n` is an `int`; the claims only concern `n ≥ 0`, so it is
modelled as `ℕ` (division by zero, reached at `n = 0`, follows Lean's
total-division convention `x / 0 = 0`).
-/

/-- The integrand `f0(x) = x` of the source (the `DEFAULT` example function). -/
def f0 (x : ℚ) : ℚ := x

/-- The integrand `f1(x) = x*x` of the source. -/
def f1 (x : ℚ) : ℚ := x * x

/-- The integrand `f2(x) = x*x*x` of the source. -/
def f2 (x : ℚ) : ℚ := x * x * x

/-- The `MAX_ITERATIONS` constant of the source. -/
def MAX_ITERATIONS : ℕ := 100

/-- The `COMPARE_DOUBLE(d1, d2, p)` macro of the source:
`(((d1 - p) < d2) && ((d1 + p) > d2)) ? 1 : 0`. -/
def COMPARE_DOUBLE (d1 d2 p : ℚ) : Bool :=
  (d1 - p < d2) && (d1 + p > d2)

/-- Embedding of `trapezoid` (lines 159-166): `area = 0.5*f(a)+0.5*f(b)`,
`h = (b-a)/n`, then `area += f(a + i*h)` for `i = 1 .. n-1`, returning
`area*h`. -/
def trapezoid (f : ℚ → ℚ) (n : ℕ) (a b : ℚ) : ℚ :=
  let h : ℚ := (b - a) / n
  let area : ℚ :=
    (List.range' 1 (n - 1)).foldl (fun (area : ℚ) (i : ℕ) => area + f (a + (i : ℚ) * h))
      (0.5 * f a + 0.5 * f b)
  area * h

/-- Embedding of `simpson1_3` (lines 168-175): `area = f(a)+f(b)`,
`h = (b-a)/n`, then `area += i%2 == 0 ? 2*f(a+i*h) : 4*f(a+i*h)` for
`i = 1 .. n-1`, returning `(area*h)/3`. -/
def simpson1_3 (f : ℚ → ℚ) (n : ℕ) (a b : ℚ) : ℚ :=
  let h : ℚ := (b - a) / n
  let area : ℚ :=
    (List.range' 1 (n - 1)).foldl
      (fun (area : ℚ) (i : ℕ) =>
        area + if i % 2 = 0 then 2 * f (a + (i : ℚ) * h) else 4 * f (a + (i : ℚ) * h))
      (f a + f b)
  (area * h) / 3

/-- Embedding of `simpson3_8` (lines 177-184): `area = f(a)+f(b)`,
`h = (b-a)/n`, then `area += i%3 == 0 ? 2*f(a+i*h) : 3*f(a+i*h)` for
`i = 1 .. n-1`, returning `3*(area*h)/8`. -/
def simpson3_8 (f : ℚ → ℚ) (n : ℕ) (a b : ℚ) : ℚ :=
  let h : ℚ := (b - a) / n
  let area : ℚ :=
    (List.range' 1 (n - 1)).foldl
      (fun (area : ℚ) (i : ℕ) =>
        area + if i % 3 = 0 then 2 * f (a + (i : ℚ) * h) else 3 * f (a + (i : ℚ) * h))
      (f a + f b)
  3 * (area * h) / 8

/-- Embedding of `boole` (lines 186-197): `area = 7*(f(a)+f(b))`,
`h = (b-a)/n`, then for `i = 1 .. n-1`: `area += 32*f(a+i*h)` when
`i%2 != 0`, else `area += i%4 == 0 ? 14*f(a+i*h) : 12*f(a+i*h)`;
returns `2*(area*h)/45`. -/
def boole (f : ℚ → ℚ) (n : ℕ) (a b : ℚ) : ℚ :=
  let h : ℚ := (b - a) / n
  let area : ℚ :=
    (List.range' 1 (n - 1)).foldl
      (fun (area : ℚ) (i : ℕ) =>
        if i % 2 ≠ 0 then area + 32 * f (a + (i : ℚ) * h)
        else area + if i % 4 = 0 then 14 * f (a + (i : ℚ) * h) else 12 * f (a + (i : ℚ) * h))
      (7 * (f a + f b))
  2 * (area * h) / 45

/-- Embedding of `mid_point_rule` (lines 202-209): `h = (b-a)/n`,
`area = 0.0`, then `area += f((a+h/2.0)+i*h)` for `i = 0 .. n-1`,
returning `area*h`. -/
def mid_point_rule (f : ℚ → ℚ) (n : ℕ) (a b : ℚ) : ℚ :=
  let h : ℚ := (b - a) / n
  let area : ℚ :=
    (List.range n).foldl (fun (area : ℚ) (i : ℕ) => area + f ((a + h / 2) + (i : ℚ) * h)) 0
  area * h

/-- Arguments at which `trapezoid` invokes the integrand `f`, one list entry
per executed call site: `f(a)` and `f(b)` in the initializer of `area`
(line 160), then `f(a + i*h)` once per loop iteration `i = 1 .. n-1`
(line 163). -/
def trapezoidCalls (n : ℕ) (a b : ℚ) : List ℚ :=
  let h : ℚ := (b - a) / n
  [a, b] ++ (List.range' 1 (n - 1)).map (fun (i : ℕ) => a + (i : ℚ) * h)

/-- Arguments at which `simpson1_3` invokes `f`: `f(a)`, `f(b)` in the
initializer (line 169), then exactly one of `2*f(a+i*h)` / `4*f(a+i*h)`
per iteration `i = 1 .. n-1` (line 172), each branch a single call. -/
def simpson1_3Calls (n : ℕ) (a b : ℚ) : List ℚ :=
  let h : ℚ := (b - a) / n
  [a, b] ++ (List.range' 1 (n - 1)).map (fun (i : ℕ) => a + (i : ℚ) * h)

/-- Arguments at which `simpson3_8` invokes `f`: `f(a)`, `f(b)` in the
initializer (line 178), then one call `f(a+i*h)` per iteration
`i = 1 .. n-1` (line 181). -/
def simpson3_8Calls (n : ℕ) (a b : ℚ) : List ℚ :=
  let h : ℚ := (b - a) / n
  [a, b] ++ (List.range' 1 (n - 1)).map (fun (i : ℕ) => a + (i : ℚ) * h)

/-- Arguments at which `boole` invokes `f`: `f(a)`, `f(b)` in the
initializer (line 187), then one call `f(a+i*h)` per iteration
`i = 1 .. n-1` (each of the three weight branches, lines 191-193,
performs a single call). -/
def booleCalls (n : ℕ) (a b : ℚ) : List ℚ :=
  let h : ℚ := (b - a) / n
  [a, b] ++ (List.range' 1 (n - 1)).map (fun (i : ℕ) => a + (i : ℚ) * h)

/-- Arguments at which `mid_point_rule` invokes `f`: one call
`f((a+h/2.0)+i*h)` per loop iteration `i = 0 .. n-1` (line 206); the
initializer `area = 0.0` performs no call. -/
def midPointCalls (n : ℕ) (a b : ℚ) : List ℚ :=
  let h : ℚ := (b - a) / n
  (List.range n).map (fun (i : ℕ) => (a + h / 2) + (i : ℚ) * h)

/-- A left fold that only accumulates sums is the initial value plus the
sum of the mapped list. -/
theorem foldl_add_eq_sum (g : ℕ → ℚ) :
    ∀ (l : List ℕ) (s : ℚ), l.foldl (fun x i => x + g i) s = s + (l.map g).sum := by
  intro l
  induction l with
  | nil => intro s; simp
  | cons x xs ih =>
    intro s
    simp only [List.foldl_cons, List.map_cons, List.sum_cons, ih]
    ring

/-- Summing a function over `List.range' 1 m` is summing its shift over
`Finset.range m`. -/
theorem sum_map_range' (g : ℕ → ℚ) :
    ∀ m : ℕ, ((List.range' 1 m).map g).sum = ∑ i in Finset.range m, g (i + 1) := by
  intro m
  induction m with
  | zero => simp
  | succ k ih =>
    rw [List.range'_concat, List.map_append, List.sum_append, ih,
      Finset.sum_range_succ]
    simp [Nat.add_comm]

/-- Summing a function over `List.range m` is summing it over `Finset.range m`. -/
theorem sum_map_range (g : ℕ → ℚ) :
    ∀ m : ℕ, ((List.range m).map g).sum = ∑ i in Finset.range m, g i := by
  intro m
  induction m with
  | zero => simp
  | succ k ih =>
    rw [List.range_succ, List.map_append, List.sum_append, ih, Finset.sum_range_succ]
    simp

/-- A sum over the interior indices `1 .. n-1` written on `Finset.Ico 1 n`
equals the shifted sum on `Finset.range (n-1)`. -/
theorem sum_Ico_one (g : ℕ → ℚ) (n : ℕ) :
    ∑ i in Finset.Ico 1 n, g i = ∑ i in Finset.range (n - 1), g (i + 1) := by
  rw [Finset.sum_Ico_eq_sum_range]
  exact Finset.sum_congr rfl (fun i _ => by rw [Nat.add_comm])

/-- Sum form of `trapezoid`: the loop accumulator written as a `Finset` sum. -/
theorem trapezoid_eq_sum (f : ℚ → ℚ) (n : ℕ) (a b : ℚ) :
    trapezoid f n a b =
      (0.5 * f a + 0.5 * f b +
        ∑ i in Finset.range (n - 1), f (a + (↑(i + 1) : ℚ) * ((b - a) / n))) * ((b - a) / n) := by
  simp only [trapezoid]
  rw [foldl_add_eq_sum (fun i => f (a + (i : ℚ) * ((b - a) / n))), sum_map_range']

/-- Sum form of `simpson1_3`, with the weight factored out of each branch. -/
theorem simpson1_3_eq_sum (f : ℚ → ℚ) (n : ℕ) (a b : ℚ) :
    simpson1_3 f n a b =
      ((f a + f b +
        ∑ i in Finset.range (n - 1),
          (if (i + 1) % 2 = 0 then (2 : ℚ) else 4) * f (a + (↑(i + 1) : ℚ) * ((b - a) / n)))
        * ((b - a) / n)) / 3 := by
  simp only [simpson1_3]
  rw [foldl_add_eq_sum
    (fun i => if i % 2 = 0 then 2 * f (a + (i : ℚ) * ((b - a) / n))
              else 4 * f (a + (i : ℚ) * ((b - a) / n))), sum_map_range']
  have hsum :
      ∑ i in Finset.range (n - 1),
        (if (i + 1) % 2 = 0 then 2 * f (a + (↑(i + 1) : ℚ) * ((b - a) / n))
         else 4 * f (a + (↑(i + 1) : ℚ) * ((b - a) / n)))
      = ∑ i in Finset.range (n - 1),
          (if (i + 1) % 2 = 0 then (2 : ℚ) else 4) * f (a + (↑(i + 1) : ℚ) * ((b - a) / n)) :=
    Finset.sum_congr rfl (fun i _ => by split_ifs <;> ring)
  rw [hsum]

/-- Sum form of `simpson3_8`, with the weight factored out of each branch. -/
theorem simpson3_8_eq_sum (f : ℚ → ℚ) (n : ℕ) (a b : ℚ) :
    simpson3_8 f n a b =
      3 * ((f a + f b +
        ∑ i in Finset.range (n - 1),
          (if (i + 1) % 3 = 0 then (2 : ℚ) else 3) * f (a + (↑(i + 1) : ℚ) * ((b - a) / n)))
        * ((b - a) / n)) / 8 := by
  simp only [simpson3_8]
  rw [foldl_add_eq_sum
    (fun i => if i % 3 = 0 then 2 * f (a + (i : ℚ) * ((b - a) / n))
              else 3 * f (a + (i : ℚ) * ((b - a) / n))), sum_map_range']
  have hsum :
      ∑ i in Finset.range (n - 1),
        (if (i + 1) % 3 = 0 then 2 * f (a + (↑(i + 1) : ℚ) * ((b - a) / n))
         else 3 * f (a + (↑(i + 1) : ℚ) * ((b - a) / n)))
      = ∑ i in Finset.range (n - 1),
          (if (i + 1) % 3 = 0 then (2 : ℚ) else 3) * f (a + (↑(i + 1) : ℚ) * ((b - a) / n)) :=
    Finset.sum_congr rfl (fun i _ => by split_ifs <;> ring)
  rw [hsum]

/-- Sum form of `boole`, with the three-way weight factored out. -/
theorem boole_eq_sum (f : ℚ → ℚ) (n : ℕ) (a b : ℚ) :
    boole f n a b =
      2 * ((7 * (f a + f b) +
        ∑ i in Finset.range (n - 1),
          (if (i + 1) % 2 ≠ 0 then (32 : ℚ) else if (i + 1) % 4 = 0 then 14 else 12)
            * f (a + (↑(i + 1) : ℚ) * ((b - a) / n)))
        * ((b - a) / n)) / 45 := by
  simp only [boole]
  have hfun :
      (fun (area : ℚ) (i : ℕ) =>
        if i % 2 ≠ 0 then area + 32 * f (a + (i : ℚ) * ((b - a) / n))
        else area + if i % 4 = 0 then 14 * f (a + (i : ℚ) * ((b - a) / n))
                    else 12 * f (a + (i : ℚ) * ((b - a) / n)))
      = (fun (area : ℚ) (i : ℕ) => area +
          (if i % 2 ≠ 0 then (32 : ℚ) else if i % 4 = 0 then 14 else 12)
            * f (a + (i : ℚ) * ((b - a) / n))) := by
    funext x i
    split_ifs <;> ring
  rw [hfun, foldl_add_eq_sum
    (fun i => (if i % 2 ≠ 0 then (32 : ℚ) else if i % 4 = 0 then 14 else 12)
      * f (a + (i : ℚ) * ((b - a) / n))), sum_map_range']

/-- Sum form of `mid_point_rule`. -/
theorem mid_point_eq_sum (f : ℚ → ℚ) (n : ℕ) (a b : ℚ) :
    mid_point_rule f n a b =
      (∑ i in Finset.range n, f ((a + ((b - a) / n) / 2) + (i : ℚ) * ((b - a) / n)))
        * ((b - a) / n) := by
  simp only [mid_point_rule]
  rw [foldl_add_eq_sum (fun i => f ((a + ((b - a) / n) / 2) + (i : ℚ) * ((b - a) / n))),
    sum_map_range, zero_add]

/-- C1: for every integrand `f`, every `n ≥ 1` (indeed every `n : ℕ`) and all
bounds `a`, `b`, `trapezoid f n a b` equals
`h * (0.5*f(a) + 0.5*f(b) + ∑ i in 1..n-1, f(a + i*h))` with `h = (b-a)/n`,
and for `n = 1` it does not crash and reduces to `0.5*h*(f(a)+f(b))`. -/
theorem C1_trapezoid_formula (f : ℚ → ℚ) (n : ℕ) (a b : ℚ) :
    trapezoid f n a b =
      ((b - a) / n) *
        (0.5 * f a + 0.5 * f b + ∑ i in Finset.Ico 1 n, f (a + (i : ℚ) * ((b - a) / n))) ∧
    trapezoid f 1 a b = 0.5 * ((b - a) / (1 : ℚ)) * (f a + f b) := by
  constructor
  · rw [trapezoid_eq_sum, sum_Ico_one (fun i => f (a + (i : ℚ) * ((b - a) / n)))]
    push_cast
    ring
  · rw [trapezoid_eq_sum]
    norm_num
    ring

/-- C2: for every integrand `f`, every `n : ℕ` (so in particular every
`n ≥ 1`) and all bounds, `simpson1_3 f n a b` equals
`(h/3) * (f(a) + f(b) + ∑ i in 1..n-1, w i * f(a+i*h))` where the interior
weight is `2` at even `i` and `4` at odd `i`, `h = (b-a)/n`. -/
theorem C2_simpson1_3_formula (f : ℚ → ℚ) (n : ℕ) (a b : ℚ) :
    simpson1_3 f n a b =
      ((b - a) / n) / 3 *
        (f a + f b +
          ∑ i in Finset.Ico 1 n,
            (if i % 2 = 0 then (2 : ℚ) else 4) * f (a + (i : ℚ) * ((b - a) / n))) := by
  rw [simpson1_3_eq_sum,
    sum_Ico_one (fun i => (if i % 2 = 0 then (2 : ℚ) else 4) * f (a + (i : ℚ) * ((b - a) / n)))]
  push_cast
  ring

/-- C3: for every integrand `f`, every `n : ℕ` (with no divisibility
restriction on `n`, as the source applies the same weighting whether or not
`3 ∣ n`) and all bounds, `simpson3_8 f n a b` equals
`(3h/8) * (f(a) + f(b) + ∑ i in 1..n-1, w i * f(a+i*h))` where the interior
weight is `2` at `i` divisible by `3` and `3` otherwise, `h = (b-a)/n`. -/
theorem C3_simpson3_8_formula (f : ℚ → ℚ) (n : ℕ) (a b : ℚ) :
    simpson3_8 f n a b =
      3 * ((b - a) / n) / 8 *
        (f a + f b +
          ∑ i in Finset.Ico 1 n,
            (if i % 3 = 0 then (2 : ℚ) else 3) * f (a + (i : ℚ) * ((b - a) / n))) := by
  rw [simpson3_8_eq_sum,
    sum_Ico_one (fun i => (if i % 3 = 0 then (2 : ℚ) else 3) * f (a + (i : ℚ) * ((b - a) / n)))]
  push_cast
  ring

/-- C4: for every integrand `f`, every `n : ℕ` and all bounds, `boole f n a b`
equals `(2h/45) * (7*(f(a)+f(b)) + ∑ i in 1..n-1, w i * f(a+i*h))` where the
interior weight is `32` at odd `i`, `14` at `i` divisible by `4`, and `12` at
even `i` not divisible by `4`, `h = (b-a)/n`. -/
theorem C4_boole_formula (f : ℚ → ℚ) (n : ℕ) (a b : ℚ) :
    boole f n a b =
      2 * ((b - a) / n) / 45 *
        (7 * (f a + f b) +
          ∑ i in Finset.Ico 1 n,
            (if i % 2 ≠ 0 then (32 : ℚ) else if i % 4 = 0 then 14 else 12)
              * f (a + (i : ℚ) * ((b - a) / n))) := by
  rw [boole_eq_sum,
    sum_Ico_one (fun i =>
      (if i % 2 ≠ 0 then (32 : ℚ) else if i % 4 = 0 then 14 else 12)
        * f (a + (i : ℚ) * ((b - a) / n)))]
  push_cast
  ring

/-- C5 (counterexample to the endpoint-exclusion part): with `n = 1` and the
degenerate bounds `a = b = 0`, the single evaluation point
`(a + h/2.0) + 0*h` of `mid_point_rule` is `0`, i.e. the integrand IS
invoked at the endpoint `a` (= `b`), contradicting the claim that it is
never evaluated at `a` or `b`. -/
theorem C5_counterexample : (0 : ℚ) ∈ midPointCalls 1 0 0 := by
  simp only [midPointCalls, List.mem_map, List.mem_range]
  exact ⟨0, by norm_num⟩

/-- C5 (amended): for every integrand, every `n` and all bounds with
`a ≠ b`, `mid_point_rule f n a b` equals
`h * ∑ i in 0..n-1, f(a + h/2 + i*h)` with `h = (b-a)/n`, the integrand is
evaluated only at the `n` subinterval midpoints, and none of those points
equals `a` or `b`.  (Without `a ≠ b` the midpoints collapse onto `a`.) -/
theorem C5_mid_point_rule (f : ℚ → ℚ) (n : ℕ) (a b : ℚ) (hab : a ≠ b) :
    mid_point_rule f n a b =
      ((b - a) / n) *
        ∑ i in Finset.range n, f ((a + ((b - a) / n) / 2) + (i : ℚ) * ((b - a) / n)) ∧
    ∀ x ∈ midPointCalls n a b, x ≠ a ∧ x ≠ b := by
  constructor
  · rw [mid_point_eq_sum, mul_comm]
  · intro x hx
    simp only [midPointCalls, List.mem_map, List.mem_range] at hx
    obtain ⟨i, hi, rfl⟩ := hx
    have hn0 : ((n : ℕ) : ℚ) ≠ 0 := Nat.cast_ne_zero.mpr (by omega)
    have hne : (b - a) / (n : ℚ) ≠ 0 :=
      div_ne_zero (sub_ne_zero.mpr (Ne.symm hab)) hn0
    have hb : (n : ℚ) * ((b - a) / (n : ℚ)) = b - a := by field_simp
    have hipos : (0 : ℚ) ≤ (i : ℚ) := Nat.cast_nonneg i
    constructor
    · intro heq
      have h2 : ((b - a) / (n : ℚ)) * (2 * (i : ℚ) + 1) = 0 := by
        linear_combination 2 * heq
      rcases mul_eq_zero.mp h2 with h | h
      · exact hne h
      · linarith
    · intro heq
      have h3 : ((b - a) / (n : ℚ)) * (2 * (i : ℚ) + 1 - 2 * (n : ℚ)) = 0 := by
        linear_combination 2 * heq - 2 * hb
      rcases mul_eq_zero.mp h3 with h | h
      · exact hne h
      · have hcast : (2 * (i : ℚ) + 1) = 2 * (n : ℚ) := by linarith
        have : 2 * i + 1 = 2 * n := by exact_mod_cast hcast
        omega

/-- C6 (counterexample): `mid_point_rule` with `n = 1` performs a single
integrand call, not `n + 1 = 2`, so the claim that every one of the five
rules invokes `f` exactly `n+1` times is false. -/
theorem C6_counterexample : (midPointCalls 1 (0 : ℚ) 1).length ≠ 1 + 1 := by
  simp [midPointCalls]

/-- C6 (amended): for `n ≥ 1` the four closed rules (`trapezoid`,
`simpson1_3`, `simpson3_8`, `boole`) invoke the integrand exactly `n + 1`
times (endpoints plus `n-1` interior points), while the open
`mid_point_rule` invokes it exactly `n` times (the `n` midpoints). -/
theorem C6_call_counts (n : ℕ) (a b : ℚ) (hn : 1 ≤ n) :
    (trapezoidCalls n a b).length = n + 1 ∧
    (simpson1_3Calls n a b).length = n + 1 ∧
    (simpson3_8Calls n a b).length = n + 1 ∧
    (booleCalls n a b).length = n + 1 ∧
    (midPointCalls n a b).length = n := by
  simp only [trapezoidCalls, simpson1_3Calls, simpson3_8Calls, booleCalls, midPointCalls,
    List.length_append, List.length_map, List.length_range', List.length_range,
    List.length_cons, List.length_nil, and_true, true_and]
  omega

/-- Witness for `C6_call_counts` at `n = 1`, `a = 0`, `b = 1`. -/
theorem C6_call_counts_witness :
    (1 ≤ 1) ∧
    ((trapezoidCalls 1 (0 : ℚ) 1).length = 1 + 1 ∧
     (simpson1_3Calls 1 (0 : ℚ) 1).length = 1 + 1 ∧
     (simpson3_8Calls 1 (0 : ℚ) 1).length = 1 + 1 ∧
     (booleCalls 1 (0 : ℚ) 1).length = 1 + 1 ∧
     (midPointCalls 1 (0 : ℚ) 1).length = 1) :=
  ⟨le_refl 1, C6_call_counts 1 0 1 (le_refl 1)⟩

/-- C9: none of the five rules validates its arguments or signals an error;
at `n = 0` each still returns its unguarded value, whose step size
`h = (b-a)/0` is an unguarded division by zero (the embedding is total over
`ℚ`, where `x / 0 = 0`; in the C original the IEEE division yields an
infinity — either way no error branch exists). -/
theorem C9_no_validation (f : ℚ → ℚ) (a b : ℚ) :
    trapezoid f 0 a b = (0.5 * f a + 0.5 * f b) * ((b - a) / (0 : ℚ)) ∧
    simpson1_3 f 0 a b = (f a + f b) * ((b - a) / (0 : ℚ)) / 3 ∧
    simpson3_8 f 0 a b = 3 * ((f a + f b) * ((b - a) / (0 : ℚ))) / 8 ∧
    boole f 0 a b = 2 * (7 * (f a + f b) * ((b - a) / (0 : ℚ))) / 45 ∧
    mid_point_rule f 0 a b = 0 * ((b - a) / (0 : ℚ)) := by
  refine ⟨?_, ?_, ?_, ?_, ?_⟩ <;>
    simp [trapezoid, simpson1_3, simpson3_8, boole, mid_point_rule]

/-- C10: with equal bounds `a = b` every rule returns exactly `0` for every
`n` (so in particular every `n ≥ 1`): the step size `(a-a)/n` is `0` and the
accumulated sum is multiplied by it. -/
theorem C10_equal_bounds (f : ℚ → ℚ) (n : ℕ) (a : ℚ) :
    trapezoid f n a a = 0 ∧ simpson1_3 f n a a = 0 ∧ simpson3_8 f n a a = 0 ∧
    boole f n a a = 0 ∧ mid_point_rule f n a a = 0 := by
  refine ⟨?_, ?_, ?_, ?_, ?_⟩ <;>
    simp [trapezoid_eq_sum, simpson1_3_eq_sum, simpson3_8_eq_sum, boole_eq_sum,
      mid_point_eq_sum]

set_option maxRecDepth 8000

/-- Concrete evaluation of the first self-test line (line 111): the
trapezoid rule is exact for the linear integrand. -/
theorem trapezoid_test_val : trapezoid f0 MAX_ITERATIONS 1 3 = 4 := by
  norm_num [trapezoid, f0, MAX_ITERATIONS, List.range']

/-- Concrete evaluation for the self-test line 112. -/
theorem simpson1_3_test_val : simpson1_3 f0 MAX_ITERATIONS 1 3 = 4 := by
  norm_num [simpson1_3, f0, MAX_ITERATIONS, List.range']

/-- Concrete evaluation for the self-test line 115: with `n = 100` not a
multiple of `3`, the 3/8 weighting misses the exact value `4` by
`0.01495`. -/
theorem simpson3_8_test_val : simpson3_8 f0 MAX_ITERATIONS 1 3 = 398505 / 100000 := by
  norm_num [simpson3_8, f0, MAX_ITERATIONS, List.range']

/-- Concrete evaluation for the self-test line 117. -/
theorem mid_point_rule_test_val : mid_point_rule f0 MAX_ITERATIONS 1 3 = 4 := by
  norm_num [mid_point_rule, f0, MAX_ITERATIONS, List.range_eq_range', List.range']

/-- Concrete evaluation for the self-test line 118. -/
theorem boole_test_val : boole f0 MAX_ITERATIONS 1 3 = 4 := by
  norm_num [boole, f0, MAX_ITERATIONS, List.range']

/-- C8: for the integrand `f0(x) = x` over `[1, 3]` with `n = 100`
(`MAX_ITERATIONS`), `trapezoid`, `simpson1_3`, `mid_point_rule` and `boole`
each return `4.0` within the absolute tolerance `0.00001` of the source's
`COMPARE_DOUBLE`, while `simpson3_8` does not (it returns `3.98505`) —
exactly the assertions of `test()` (lines 109-121). -/
theorem C8_self_test :
    COMPARE_DOUBLE (trapezoid f0 MAX_ITERATIONS 1 3) 4 0.00001 = true ∧
    COMPARE_DOUBLE (simpson1_3 f0 MAX_ITERATIONS 1 3) 4 0.00001 = true ∧
    COMPARE_DOUBLE (simpson3_8 f0 MAX_ITERATIONS 1 3) 4 0.00001 = false ∧
    COMPARE_DOUBLE (mid_point_rule f0 MAX_ITERATIONS 1 3) 4 0.00001 = true ∧
    COMPARE_DOUBLE (boole f0 MAX_ITERATIONS 1 3) 4 0.00001 = true := by
  refine ⟨?_, ?_, ?_, ?_, ?_⟩
  · rw [trapezoid_test_val]
    simp only [COMPARE_DOUBLE, Bool.and_eq_true, decide_eq_true_eq]
    norm_num
  · rw [simpson1_3_test_val]
    simp only [COMPARE_DOUBLE, Bool.and_eq_true, decide_eq_true_eq]
    norm_num
  · rw [simpson3_8_test_val]
    have hfalse : decide ((398505 : ℚ) / 100000 + 0.00001 > 4) = false := by
      rw [decide_eq_false_iff_not]
      norm_num
    simp [COMPARE_DOUBLE, hfalse]
  · rw [mid_point_rule_test_val]
    simp only [COMPARE_DOUBLE, Bool.and_eq_true, decide_eq_true_eq]
    norm_num
  · rw [boole_test_val]
    simp only [COMPARE_DOUBLE, Bool.and_eq_true, decide_eq_true_eq]
    norm_num

/-- Reflecting the interior indices `1 .. n-1` about the midpoint of the
interval: summing `G (n - i)` over them equals summing `G i`. -/
theorem sum_range_reflect_shift (G : ℕ → ℚ) (n : ℕ) :
    ∑ i in Finset.range (n - 1), G (n - (i + 1)) = ∑ i in Finset.range (n - 1), G (i + 1) := by
  cases n with
  | zero => simp
  | succ m =>
    simp only [Nat.add_sub_cancel, Nat.add_sub_add_right]
    rw [← Finset.sum_range_reflect (fun j => G (j + 1)) m]
    refine Finset.sum_congr rfl (fun j hj => ?_)
    have hjm : j < m := Finset.mem_range.mp hj
    congr 1
    omega

/-- Swapping the bounds sends the interior sample `b + i*((a-b)/n)` to the
reflected sample `a + (n-i)*((b-a)/n)`; when the weight pattern is symmetric
under `i ↦ n - i`, the whole weighted interior sum is unchanged. -/
theorem swap_sum (f : ℚ → ℚ) (w : ℕ → ℚ) (n : ℕ) (a b : ℚ) (hn : 1 ≤ n)
    (hw : ∀ i, 1 ≤ i → i < n → w (n - i) = w i) :
    ∑ i in Finset.range (n - 1), w (i + 1) * f (b + (↑(i + 1) : ℚ) * ((a - b) / (n : ℚ)))
      = ∑ i in Finset.range (n - 1), w (i + 1) * f (a + (↑(i + 1) : ℚ) * ((b - a) / (n : ℚ))) := by
  have hn0 : ((n : ℕ) : ℚ) ≠ 0 := Nat.cast_ne_zero.mpr (by omega)
  have step : ∀ i ∈ Finset.range (n - 1),
      w (i + 1) * f (b + (↑(i + 1) : ℚ) * ((a - b) / (n : ℚ)))
        = w (n - (i + 1)) * f (a + (↑(n - (i + 1)) : ℚ) * ((b - a) / (n : ℚ))) := by
    intro i hi
    have hi' : i < n - 1 := Finset.mem_range.mp hi
    have hle : i + 1 ≤ n := by omega
    have e1 : w (i + 1) = w (n - (i + 1)) := (hw (i + 1) (by omega) (by omega)).symm
    have e2 : ((n - (i + 1) : ℕ) : ℚ) = (n : ℚ) - (↑(i + 1) : ℚ) := Nat.cast_sub hle
    have e3 : b + (↑(i + 1) : ℚ) * ((a - b) / (n : ℚ))
        = a + ((n : ℚ) - (↑(i + 1) : ℚ)) * ((b - a) / (n : ℚ)) := by
      field_simp
      ring
    rw [e1, e3, ← e2]
  rw [Finset.sum_congr rfl step]
  exact sum_range_reflect_shift
    (fun j => w j * f (a + (j : ℚ) * ((b - a) / (n : ℚ)))) n

/-- Swapping the bounds negates `trapezoid`, for every `n ≥ 1` (the interior
weights are constant, hence symmetric). -/
theorem trapezoid_swap (f : ℚ → ℚ) (n : ℕ) (a b : ℚ) (hn : 1 ≤ n) :
    trapezoid f n b a = -(trapezoid f n a b) := by
  rw [trapezoid_eq_sum f n b a, trapezoid_eq_sum f n a b]
  have key : ∑ i in Finset.range (n - 1),
        (1 : ℚ) * f (b + (↑(i + 1) : ℚ) * ((a - b) / (n : ℚ)))
      = ∑ i in Finset.range (n - 1),
          (1 : ℚ) * f (a + (↑(i + 1) : ℚ) * ((b - a) / (n : ℚ))) :=
    swap_sum f (fun _ => 1) n a b hn (fun i h1 h2 => rfl)
  simp only [one_mul] at key
  rw [key]
  push_cast
  ring

/-- Swapping the bounds negates `simpson1_3` when `n` is even (the 4-2-4
interior pattern is symmetric exactly when `i` and `n - i` share parity). -/
theorem simpson1_3_swap (f : ℚ → ℚ) (n : ℕ) (a b : ℚ) (hn : 1 ≤ n) (hd : 2 ∣ n) :
    simpson1_3 f n b a = -(simpson1_3 f n a b) := by
  rw [simpson1_3_eq_sum f n b a, simpson1_3_eq_sum f n a b]
  have key : ∑ i in Finset.range (n - 1),
        (if (i + 1) % 2 = 0 then (2 : ℚ) else 4)
          * f (b + (↑(i + 1) : ℚ) * ((a - b) / (n : ℚ)))
      = ∑ i in Finset.range (n - 1),
          (if (i + 1) % 2 = 0 then (2 : ℚ) else 4)
            * f (a + (↑(i + 1) : ℚ) * ((b - a) / (n : ℚ))) := by
    refine swap_sum f (fun j => if j % 2 = 0 then (2 : ℚ) else 4) n a b hn ?_
    intro i h1 h2
    have hmod : (n - i) % 2 = i % 2 := by omega
    simp only [hmod]
  rw [key]
  push_cast
  ring

/-- Swapping the bounds negates `simpson3_8` when `3 ∣ n` (the 3-3-2 pattern
is symmetric exactly when `i` and `n - i` agree modulo 3). -/
theorem simpson3_8_swap (f : ℚ → ℚ) (n : ℕ) (a b : ℚ) (hn : 1 ≤ n) (hd : 3 ∣ n) :
    simpson3_8 f n b a = -(simpson3_8 f n a b) := by
  rw [simpson3_8_eq_sum f n b a, simpson3_8_eq_sum f n a b]
  have key : ∑ i in Finset.range (n - 1),
        (if (i + 1) % 3 = 0 then (2 : ℚ) else 3)
          * f (b + (↑(i + 1) : ℚ) * ((a - b) / (n : ℚ)))
      = ∑ i in Finset.range (n - 1),
          (if (i + 1) % 3 = 0 then (2 : ℚ) else 3)
            * f (a + (↑(i + 1) : ℚ) * ((b - a) / (n : ℚ))) := by
    refine swap_sum f (fun j => if j % 3 = 0 then (2 : ℚ) else 3) n a b hn ?_
    intro i h1 h2
    have hmod : (n - i) % 3 = 0 ↔ i % 3 = 0 := by omega
    simp only [hmod]
  rw [key]
  push_cast
  ring

/-- Swapping the bounds negates `boole` when `4 ∣ n` (the 32/14/12 pattern is
symmetric exactly when `i` and `n - i` agree modulo 4). -/
theorem boole_swap (f : ℚ → ℚ) (n : ℕ) (a b : ℚ) (hn : 1 ≤ n) (hd : 4 ∣ n) :
    boole f n b a = -(boole f n a b) := by
  rw [boole_eq_sum f n b a, boole_eq_sum f n a b]
  have key : ∑ i in Finset.range (n - 1),
        (if (i + 1) % 2 ≠ 0 then (32 : ℚ) else if (i + 1) % 4 = 0 then 14 else 12)
          * f (b + (↑(i + 1) : ℚ) * ((a - b) / (n : ℚ)))
      = ∑ i in Finset.range (n - 1),
          (if (i + 1) % 2 ≠ 0 then (32 : ℚ) else if (i + 1) % 4 = 0 then 14 else 12)
            * f (a + (↑(i + 1) : ℚ) * ((b - a) / (n : ℚ))) := by
    refine swap_sum f
      (fun j => if j % 2 ≠ 0 then (32 : ℚ) else if j % 4 = 0 then 14 else 12) n a b hn ?_
    intro i h1 h2
    have hmod2 : (n - i) % 2 = i % 2 := by omega
    have hmod4 : (n - i) % 4 = 0 ↔ i % 4 = 0 := by omega
    simp only [hmod2, hmod4]
  rw [key]
  push_cast
  ring

/-- Swapping the bounds negates `mid_point_rule`, for every `n ≥ 1` (the set
of midpoints is reflected onto itself with unit weights). -/
theorem mid_point_swap (f : ℚ → ℚ) (n : ℕ) (a b : ℚ) (hn : 1 ≤ n) :
    mid_point_rule f n b a = -(mid_point_rule f n a b) := by
  rw [mid_point_eq_sum f n b a, mid_point_eq_sum f n a b]
  have hn0 : ((n : ℕ) : ℚ) ≠ 0 := Nat.cast_ne_zero.mpr (by omega)
  have key : ∑ i in Finset.range n,
        f ((b + ((a - b) / (n : ℚ)) / 2) + (i : ℚ) * ((a - b) / (n : ℚ)))
      = ∑ i in Finset.range n,
          f ((a + ((b - a) / (n : ℚ)) / 2) + (i : ℚ) * ((b - a) / (n : ℚ))) := by
    have step : ∀ i ∈ Finset.range n,
        f ((b + ((a - b) / (n : ℚ)) / 2) + (i : ℚ) * ((a - b) / (n : ℚ)))
          = f ((a + ((b - a) / (n : ℚ)) / 2) + (↑(n - 1 - i) : ℚ) * ((b - a) / (n : ℚ))) := by
      intro i hi
      have hi' : i < n := Finset.mem_range.mp hi
      have e2 : ((n - 1 - i : ℕ) : ℚ) = (n : ℚ) - 1 - (i : ℚ) := by
        rw [Nat.sub_sub, Nat.cast_sub (by omega : 1 + i ≤ n)]
        push_cast
        ring
      rw [e2]
      congr 1
      field_simp
      ring
    rw [Finset.sum_congr rfl step]
    exact Finset.sum_range_reflect
      (fun j => f ((a + ((b - a) / (n : ℚ)) / 2) + (j : ℚ) * ((b - a) / (n : ℚ)))) n
  rw [key]
  ring

/-- C7 (counterexample): swapping the bounds does NOT negate `simpson1_3`
when `n` is odd: for `f1(x) = x²`, `n = 3`, `a = 0`, `b = 3` the forward
value is `7` but the swapped call returns `-9 ≠ -7` (the 4-2 interior
weights attach to reflected points when the bounds are swapped, and for odd
`n` the pattern is not symmetric). -/
theorem C7_counterexample :
    simpson1_3 f1 3 3 0 ≠ -(simpson1_3 f1 3 0 3) := by
  norm_num [simpson1_3, f1, List.range']

/-- C7 (amended): for every integrand, every `n ≥ 1` and all bounds,
swapping the bounds negates `trapezoid` and `mid_point_rule`
unconditionally, and negates `simpson1_3` when `2 ∣ n`, `simpson3_8` when
`3 ∣ n`, and `boole` when `4 ∣ n` (the divisibility each rule's weight
pattern needs to be reflection-symmetric). -/
theorem C7_swap_bounds (f : ℚ → ℚ) (n : ℕ) (a b : ℚ) (hn : 1 ≤ n) :
    trapezoid f n b a = -(trapezoid f n a b) ∧
    mid_point_rule f n b a = -(mid_point_rule f n a b) ∧
    (2 ∣ n → simpson1_3 f n b a = -(simpson1_3 f n a b)) ∧
    (3 ∣ n → simpson3_8 f n b a = -(simpson3_8 f n a b)) ∧
    (4 ∣ n → boole f n b a = -(boole f n a b)) :=
  ⟨trapezoid_swap f n a b hn, mid_point_swap f n a b hn,
   fun hd => simpson1_3_swap f n a b hn hd,
   fun hd => simpson3_8_swap f n a b hn hd,
   fun hd => boole_swap f n a b hn hd⟩

/-- Witness for `C7_swap_bounds` at `f0`, `n = 12`, `a = 0`, `b = 1`, where
all three divisibility conditions hold and are discharged. -/
theorem C7_swap_bounds_witness :
    (1 ≤ 12) ∧
    (trapezoid f0 12 1 0 = -(trapezoid f0 12 0 1) ∧
     mid_point_rule f0 12 1 0 = -(mid_point_rule f0 12 0 1) ∧
     simpson1_3 f0 12 1 0 = -(simpson1_3 f0 12 0 1) ∧
     simpson3_8 f0 12 1 0 = -(simpson3_8 f0 12 0 1) ∧
     boole f0 12 1 0 = -(boole f0 12 0 1)) := by
  obtain ⟨ht, hm, h2, h3, h4⟩ := C7_swap_bounds f0 12 0 1 (by norm_num)
  exact ⟨by norm_num, ht, hm, h2 (by norm_num), h3 (by norm_num), h4 (by norm_num)⟩

/-- Witness for `C5_mid_point_rule` at `f0`, `n = 1`, `a = 0`, `b = 1`: the
hypothesis `0 ≠ 1` holds and the single midpoint `1/2` differs from both
endpoints. -/
theorem C5_mid_point_rule_witness :
    ((0 : ℚ) ≠ 1) ∧ ((1 : ℚ) / 2 ≠ 0 ∧ (1 : ℚ) / 2 ≠ 1) := by
  have hmem : (1 : ℚ) / 2 ∈ midPointCalls 1 0 1 := by
    simp only [midPointCalls, List.mem_map, List.mem_range]
    exact ⟨0, by norm_num⟩
  exact ⟨by norm_num, (C5_mid_point_rule f0 1 0 1 (by norm_num)).2 (1 / 2) hmem⟩
